import Mathlib

/-!
Verification of the safe-math library: a shallow embedding of the crate's
checked-arithmetic operations (`src/impls.rs`, `src/ops.rs`, `src/error.rs`),
of the `#[safe_math]` expression rewriter (`safe_math_macros/src/lib.rs`),
and of the `SafeMathOps` derive generator (`safe-math-macros/src/derive/mod.rs`),
together with theorems settling the specification's claims about them.
-/

/-- The error enum from `src/error.rs` (`SafeMathError`). -/
inductive SafeMathError where
  | Overflow
  | DivisionByZero
  | InfiniteOrNaN
  | NotImplemented
deriving DecidableEq, Repr

/-- A built-in Rust integer type, described by its bit width and signedness
(e.g. `u8` is 8 bits unsigned, `i32` is 32 bits signed). -/
structure IntTy where
  bits : Nat
  signed : Bool
deriving DecidableEq, Repr

def u8Ty : IntTy := ⟨8, false⟩
def i32Ty : IntTy := ⟨32, true⟩

/-- Smallest value of the type. -/
def IntTy.minVal (t : IntTy) : Int :=
  if t.signed then -(2 ^ (t.bits - 1)) else 0

/-- Largest value of the type. -/
def IntTy.maxVal (t : IntTy) : Int :=
  if t.signed then 2 ^ (t.bits - 1) - 1 else 2 ^ t.bits - 1

/-- `v` is representable in the type. -/
def IntTy.inRange (t : IntTy) (v : Int) : Prop :=
  t.minVal ≤ v ∧ v ≤ t.maxVal

instance (t : IntTy) (v : Int) : Decidable (t.inRange v) :=
  inferInstanceAs (Decidable (_ ∧ _))

/-- Two's-complement wrap-around of an integer into the type's range: the value
a plain Rust operator produces in release mode when the exact result overflows. -/
def IntTy.wrap (t : IntTy) (v : Int) : Int :=
  (v - t.minVal) % (2 : Int) ^ t.bits + t.minVal

/-- Rust `checked_add`: the exact sum when representable, `None` on overflow. -/
def checked_add (t : IntTy) (a b : Int) : Option Int :=
  if t.inRange (a + b) then some (a + b) else none

/-- Rust `checked_sub`: the exact difference when representable, `None` on overflow. -/
def checked_sub (t : IntTy) (a b : Int) : Option Int :=
  if t.inRange (a - b) then some (a - b) else none

/-- Rust `checked_mul`: the exact product when representable, `None` on overflow. -/
def checked_mul (t : IntTy) (a b : Int) : Option Int :=
  if t.inRange (a * b) then some (a * b) else none

/-- Rust `checked_div`: truncated division; `None` when the divisor is zero or
the quotient overflows (the signed `MIN / -1` case). -/
def checked_div (t : IntTy) (a b : Int) : Option Int :=
  if b = 0 then none
  else if t.inRange (Int.tdiv a b) then some (Int.tdiv a b) else none

/-- Rust `checked_rem`: truncating remainder; `None` when the divisor is zero or
the corresponding division overflows (the signed `MIN % -1` case). -/
def checked_rem (t : IntTy) (a b : Int) : Option Int :=
  if b = 0 then none
  else if t.inRange (Int.tdiv a b) then some (Int.tmod a b) else none

/-- `safe_add` for built-in integers (`impl_safe_ops!` in `src/impls.rs`):
`self.checked_add(&rhs).ok_or(SafeMathError::Overflow)`. -/
def safe_add (t : IntTy) (a b : Int) : Except SafeMathError Int :=
  match checked_add t a b with
  | some r => .ok r
  | none => .error .Overflow

/-- `safe_sub` for built-in integers: `checked_sub` with `Overflow` on `None`. -/
def safe_sub (t : IntTy) (a b : Int) : Except SafeMathError Int :=
  match checked_sub t a b with
  | some r => .ok r
  | none => .error .Overflow

/-- `safe_mul` for built-in integers: `checked_mul` with `Overflow` on `None`. -/
def safe_mul (t : IntTy) (a b : Int) : Except SafeMathError Int :=
  match checked_mul t a b with
  | some r => .ok r
  | none => .error .Overflow

/-- `safe_div` for built-in integers (`impl_safe_ops!` in `src/impls.rs`):
`self.checked_div(&rhs).ok_or(SafeMathError::DivisionByZero)` — note the single
unconditional error kind. -/
def safe_div (t : IntTy) (a b : Int) : Except SafeMathError Int :=
  match checked_div t a b with
  | some r => .ok r
  | none => .error .DivisionByZero

/-- `safe_rem` for built-in integers:
`self.checked_rem(&rhs).ok_or(SafeMathError::DivisionByZero)`. -/
def safe_rem (t : IntTy) (a b : Int) : Except SafeMathError Int :=
  match checked_rem t a b with
  | some r => .ok r
  | none => .error .DivisionByZero

/-- The value a plain `+` produces (release-mode wrapping semantics). -/
def plain_add (t : IntTy) (a b : Int) : Int := t.wrap (a + b)

/-- The value a plain `-` produces (release-mode wrapping semantics). -/
def plain_sub (t : IntTy) (a b : Int) : Int := t.wrap (a - b)

/-- The value a plain `*` produces (release-mode wrapping semantics). -/
def plain_mul (t : IntTy) (a b : Int) : Int := t.wrap (a * b)

lemma IntTy.span (t : IntTy) (ht : 0 < t.bits) :
    t.maxVal - t.minVal = 2 ^ t.bits - 1 := by
  rcases t with ⟨b, s⟩
  have hb1 : b = b - 1 + 1 := (Nat.succ_pred_eq_of_pos ht).symm
  have hpow : (2 : Int) ^ b = 2 ^ (b - 1) * 2 := by
    conv_lhs => rw [hb1]
    rw [pow_succ]
  cases s with
  | false => simp [IntTy.maxVal, IntTy.minVal]
  | true =>
    simp only [IntTy.maxVal, IntTy.minVal, if_true]
    linarith [hpow]

lemma IntTy.wrap_eq_of_inRange (t : IntTy) (v : Int) (ht : 0 < t.bits)
    (h : t.inRange v) : t.wrap v = v := by
  obtain ⟨h1, h2⟩ := h
  have hspan := t.span ht
  have hlow : 0 ≤ v - t.minVal := by omega
  have hhigh : v - t.minVal < 2 ^ t.bits := by omega
  unfold IntTy.wrap
  rw [Int.emod_eq_of_lt hlow hhigh]
  omega

/-- C1: for every built-in integer type and every representable pair `(a, b)`,
`safe_add`, `safe_sub` and `safe_mul` return `Ok` of the mathematically exact
result exactly when it fits the type's range and `Err(Overflow)` otherwise, and
on every non-failing input the result coincides with what the plain (wrapping)
operator produces. -/
theorem safe_int_ops_match_exact_or_overflow (t : IntTy) (a b : Int)
    (ht : 0 < t.bits) (ha : t.inRange a) (hb : t.inRange b) :
    (safe_add t a b =
      if t.inRange (a + b) then .ok (a + b) else .error .Overflow)
    ∧ (t.inRange (a + b) → safe_add t a b = .ok (plain_add t a b))
    ∧ (safe_sub t a b =
      if t.inRange (a - b) then .ok (a - b) else .error .Overflow)
    ∧ (t.inRange (a - b) → safe_sub t a b = .ok (plain_sub t a b))
    ∧ (safe_mul t a b =
      if t.inRange (a * b) then .ok (a * b) else .error .Overflow)
    ∧ (t.inRange (a * b) → safe_mul t a b = .ok (plain_mul t a b)) := by
  refine ⟨?_, ?_, ?_, ?_, ?_, ?_⟩
  · unfold safe_add checked_add
    by_cases h : t.inRange (a + b) <;> simp [h]
  · intro h
    unfold safe_add checked_add plain_add
    rw [t.wrap_eq_of_inRange _ ht h]
    simp [h]
  · unfold safe_sub checked_sub
    by_cases h : t.inRange (a - b) <;> simp [h]
  · intro h
    unfold safe_sub checked_sub plain_sub
    rw [t.wrap_eq_of_inRange _ ht h]
    simp [h]
  · unfold safe_mul checked_mul
    by_cases h : t.inRange (a * b) <;> simp [h]
  · intro h
    unfold safe_mul checked_mul plain_mul
    rw [t.wrap_eq_of_inRange _ ht h]
    simp [h]

/-- Witness for C1: the theorem instantiated at `u8` with `a = 10`, `b = 20`. -/
theorem safe_int_ops_match_exact_or_overflow_witness :
    (safe_add u8Ty 10 20 =
      if u8Ty.inRange (10 + 20) then .ok (10 + 20) else .error .Overflow)
    ∧ (u8Ty.inRange (10 + 20) → safe_add u8Ty 10 20 = .ok (plain_add u8Ty 10 20))
    ∧ (safe_sub u8Ty 10 20 =
      if u8Ty.inRange (10 - 20) then .ok (10 - 20) else .error .Overflow)
    ∧ (u8Ty.inRange (10 - 20) → safe_sub u8Ty 10 20 = .ok (plain_sub u8Ty 10 20))
    ∧ (safe_mul u8Ty 10 20 =
      if u8Ty.inRange (10 * 20) then .ok (10 * 20) else .error .Overflow)
    ∧ (u8Ty.inRange (10 * 20) → safe_mul u8Ty 10 20 = .ok (plain_mul u8Ty 10 20)) :=
  safe_int_ops_match_exact_or_overflow u8Ty 10 20 (by decide) (by decide) (by decide)

/-- C2 (code bug): the crate's `safe_div` for built-in integers maps every
`checked_div` failure — including the signed edge case `i32::MIN / -1` — to
`DivisionByZero`, although the `SafeDiv` trait documentation in `src/ops.rs`
promises `Err(Overflow)` for the overflowing division. This theorem evaluates
the code at the failing input and at the documented zero-divisor cases. -/
theorem safe_div_rem_zero_divisor_and_min_div_neg_one :
    safe_div i32Ty (-(2 ^ 31)) (-1) = .error .DivisionByZero
    ∧ safe_div u8Ty 10 0 = .error .DivisionByZero
    ∧ safe_rem u8Ty 10 0 = .error .DivisionByZero
    ∧ SafeMathError.DivisionByZero ≠ SafeMathError.Overflow :=
  ⟨rfl, rfl, rfl, by decide⟩

/-! ## The `#[safe_math]` expression rewriter (`safe_math_macros/src/lib.rs`) -/

/-- The five arithmetic operation kinds rewritten by the macro
(`BinOp::Add`/`Sub`/`Mul`/`Div`/`Rem` and their `*Assign` forms). -/
inductive BinOpKind where
  | add | sub | mul | div | rem
deriving DecidableEq, Repr

/-- The operation's base name, used for the temporary identifier's name. -/
def opBase : BinOpKind → String
  | .add => "add"
  | .sub => "sub"
  | .mul => "mul"
  | .div => "div"
  | .rem => "rem"

/-- `generate_unique_ident` from `safe_math_macros/src/lib.rs`: formats
the fixed name `__safe_math_{base}_tmp` at call-site hygiene. -/
def generate_unique_ident (base : String) : String :=
  "__safe_math_" ++ base ++ "_tmp"

/-- A fragment of syn's `Expr` tree covering the shapes the rewriter
distinguishes. `safeCall op l r` stands for the emitted
`safe_math::safe_<op>(l, r)?`; `tmpBlock tmp target op value` stands for the
emitted two-statement block
`{ let tmp = &mut target; *tmp = safe_math::safe_<op>(*tmp, value)?; }`. -/
inductive RExpr where
  | lit (n : Int)
  | var (name : String)
  | index (base idx : RExpr)
  | call (fname : String)
  | binary (op : BinOpKind) (l r : RExpr)
  | compound (op : BinOpKind) (target value : RExpr)
  | assign (target value : RExpr)
  | safeCall (op : BinOpKind) (l r : RExpr)
  | tmpBlock (tmp : String) (target : RExpr) (op : BinOpKind) (value : RExpr)
deriving DecidableEq, Repr

/-- `MathRewriter::fold_expr`: arithmetic binaries become checked calls with
`?`; compound assignments whose folded target is an `Index` or `Call`
expression become the two-statement temporary block, every other target shape
becomes `target = safe_<op>(target, value)?`; all other nodes are rebuilt
unchanged but recursed into. -/
def fold_expr : RExpr → RExpr
  | .binary op l r => .safeCall op (fold_expr l) (fold_expr r)
  | .compound op l r =>
    match fold_expr l, fold_expr r with
    | .index b i, r' =>
      .tmpBlock (generate_unique_ident (opBase op)) (.index b i) op r'
    | .call f, r' =>
      .tmpBlock (generate_unique_ident (opBase op)) (.call f) op r'
    | l', r' => .assign l' (.safeCall op l' r')
  | .index b i => .index (fold_expr b) (fold_expr i)
  | .call f => .call f
  | .assign t v => .assign (fold_expr t) (fold_expr v)
  | .safeCall op l r => .safeCall op (fold_expr l) (fold_expr r)
  | .tmpBlock tmp t op v => .tmpBlock tmp (fold_expr t) op (fold_expr v)
  | .lit n => .lit n
  | .var x => .var x

/-- The `Expr::Index(_) | Expr::Call(_)` pattern of the compound-assignment
arms in `MathRewriter::fold_expr`. -/
def isIndexOrCall : RExpr → Bool
  | .index _ _ => true
  | .call _ => true
  | _ => false

/-- Counterexample for C7: a compound assignment whose target is a plain
variable is not rewritten to the temporary-block form; it becomes the
assignment `x = safe_add(x, 1)?`, whose target occurs twice. -/
theorem fold_var_target_not_normalized_cex :
    fold_expr (.compound .add (.var "x") (.lit 1))
      = .assign (.var "x") (.safeCall .add (.var "x") (.lit 1))
    ∧ ¬ ∃ tmp t o v,
        fold_expr (.compound .add (.var "x") (.lit 1)) = .tmpBlock tmp t o v := by
  refine ⟨rfl, ?_⟩
  rintro ⟨tmp, t, o, v, h⟩
  simp [fold_expr] at h

/-- C7 as amended: the two-statement block rewrite is applied exactly to the
compound assignments whose folded target is an index or call expression; every
other target shape is rewritten to the single assignment
`target = safe_<op>(target, value)?`. -/
theorem fold_compound_characterization (op : BinOpKind) (l r : RExpr) :
    fold_expr (.compound op l r) =
      if isIndexOrCall (fold_expr l) then
        .tmpBlock (generate_unique_ident (opBase op)) (fold_expr l) op
          (fold_expr r)
      else
        .assign (fold_expr l) (.safeCall op (fold_expr l) (fold_expr r)) := by
  show (match fold_expr l, fold_expr r with
    | .index b i, r' =>
      RExpr.tmpBlock (generate_unique_ident (opBase op)) (.index b i) op r'
    | .call f, r' =>
      RExpr.tmpBlock (generate_unique_ident (opBase op)) (.call f) op r'
    | l', r' => RExpr.assign l' (.safeCall op l' r')) = _
  cases hl : fold_expr l <;> simp [isIndexOrCall]

/-- Counterexample for C8: there is no counter and no process identity in the
generated temporary names — two distinct sequential compound-assignment
rewrites of the same operation kind receive the identical temporary
identifier `__safe_math_add_tmp`. -/
theorem tmp_ident_reused_across_rewrites_cex :
    fold_expr (.compound .add (.call "f") (.lit 1))
      = .tmpBlock "__safe_math_add_tmp" (.call "f") .add (.lit 1)
    ∧ fold_expr (.compound .add (.call "g") (.lit 2))
      = .tmpBlock "__safe_math_add_tmp" (.call "g") .add (.lit 2) :=
  ⟨rfl, rfl⟩

/-- C8 as amended: the generated temporary identifier is a deterministic
function of the operation's base name alone — `__safe_math_<base>_tmp` — with
no counter and no process identity; rewrites of the same operation kind reuse
the identical identifier and rely on block scoping for correctness. -/
theorem tmp_ident_deterministic (base : String) (op : BinOpKind)
    (f : String) (n : Int) :
    generate_unique_ident base = "__safe_math_" ++ base ++ "_tmp"
    ∧ fold_expr (.compound op (.call f) (.lit n))
        = .tmpBlock (generate_unique_ident (opBase op)) (.call f) op (.lit n) :=
  ⟨rfl, rfl⟩

/-! ## Execution semantics for rewritten code (settling the
evaluation-count claim about compound-assignment targets) -/

/-- A resolved memory location: a scalar variable, an indexed array slot, or
the static cell a place-returning function hands out a reference to. -/
inductive Place where
  | pvar (x : String)
  | parr (a : String) (i : Int)
  | pcell (f : String)
deriving DecidableEq, Repr

/-- Memory plus the trace of side-effecting function calls performed so far
(most recent first), mirroring the crate's compound-assignment test that
counts invocations of a counter-incrementing `get_index`. -/
structure EvalState where
  mem : List (Place × Int)
  calls : List String
deriving Repr

def readMem : List (Place × Int) → Place → Int
  | [], _ => 0
  | (p, v) :: rest, q => if p = q then v else readMem rest q

def EvalState.read (s : EvalState) (p : Place) : Int := readMem s.mem p

def EvalState.write (s : EvalState) (p : Place) (v : Int) : EvalState :=
  { s with mem := (p, v) :: s.mem }

/-- Record one invocation of the side-effecting function `f`. -/
def EvalState.callFn (s : EvalState) (f : String) : EvalState :=
  { s with calls := f :: s.calls }

/-- Dispatch to the checked operation the rewriter's emitted call names
(`safe_math::safe_<op>`), at integer type `t`. -/
def safeOpInt (t : IntTy) : BinOpKind → Int → Int → Except SafeMathError Int
  | .add => safe_add t
  | .sub => safe_sub t
  | .mul => safe_mul t
  | .div => safe_div t
  | .rem => safe_rem t

/-- Semantics of a plain (unrewritten) operator: wrapping arithmetic, with
the division-by-zero panic modelled as an error. Input-only forms; the
theorems below evaluate rewritten trees. -/
def nativeOp (t : IntTy) (op : BinOpKind) (a b : Int) :
    Except SafeMathError Int :=
  match op with
  | .add => .ok (plain_add t a b)
  | .sub => .ok (plain_sub t a b)
  | .mul => .ok (plain_mul t a b)
  | .div => if b = 0 then .error .DivisionByZero else .ok (t.wrap (Int.tdiv a b))
  | .rem => if b = 0 then .error .DivisionByZero else .ok (t.wrap (Int.tmod a b))

mutual

/-- Big-step evaluation of an expression at integer type `t`. Errors model the
early return performed by the emitted `?`; the state (and so the call trace)
survives a failure, as it does in the Rust program. A zero-argument call plays
the counter-incrementing `get_index` role: it logs itself and returns its own
running count. Assignments evaluate their right operand before their target
place, as Rust does. -/
def eval (t : IntTy) (s : EvalState) : RExpr → (Except SafeMathError Int) × EvalState
  | .lit n => (.ok n, s)
  | .var x => (.ok (s.read (.pvar x)), s)
  | .call f => (.ok (Int.ofNat (s.calls.count f)), s.callFn f)
  | .index b i =>
    match b with
    | .var a =>
      match eval t s i with
      | (.ok n, s') => (.ok (s'.read (.parr a n)), s')
      | (.error e, s') => (.error e, s')
    | _ => (.error .NotImplemented, s)
  | .binary op l r =>
    match eval t s l with
    | (.error e, s') => (.error e, s')
    | (.ok av, s1) =>
      match eval t s1 r with
      | (.error e, s2) => (.error e, s2)
      | (.ok bv, s2) =>
        match nativeOp t op av bv with
        | .ok r' => (.ok r', s2)
        | .error e => (.error e, s2)
  | .compound op tgt v =>
    match eval t s v with
    | (.error e, s') => (.error e, s')
    | (.ok bv, s1) =>
      match evalPlace t s1 tgt with
      | (.error e, s2) => (.error e, s2)
      | (.ok pl, s2) =>
        match nativeOp t op (s2.read pl) bv with
        | .ok r' => (.ok 0, s2.write pl r')
        | .error e => (.error e, s2)
  | .assign tgt v =>
    match eval t s v with
    | (.error e, s') => (.error e, s')
    | (.ok bv, s1) =>
      match evalPlace t s1 tgt with
      | (.error e, s2) => (.error e, s2)
      | (.ok pl, s2) => (.ok 0, s2.write pl bv)
  | .safeCall op l r =>
    match eval t s l with
    | (.error e, s') => (.error e, s')
    | (.ok av, s1) =>
      match eval t s1 r with
      | (.error e, s2) => (.error e, s2)
      | (.ok bv, s2) =>
        match safeOpInt t op av bv with
        | .ok r' => (.ok r', s2)
        | .error e => (.error e, s2)
  | .tmpBlock _ tgt op v =>
    match evalPlace t s tgt with
    | (.error e, s') => (.error e, s')
    | (.ok pl, s1) =>
      match eval t s1 v with
      | (.error e, s2) => (.error e, s2)
      | (.ok bv, s2) =>
        match safeOpInt t op (s1.read pl) bv with
        | .ok r' => (.ok 0, s2.write pl r')
        | .error e => (.error e, s2)

/-- Resolve an expression to a memory location (the `&mut target` binding of
the emitted block). Resolving an indexed place evaluates the index expression;
resolving a call place invokes the function. Only named arrays are modelled. -/
def evalPlace (t : IntTy) (s : EvalState) : RExpr → (Except SafeMathError Place) × EvalState
  | .var x => (.ok (.pvar x), s)
  | .call f => (.ok (.pcell f), s.callFn f)
  | .index b i =>
    match b with
    | .var a =>
      match eval t s i with
      | (.ok n, s') => (.ok (.parr a n), s')
      | (.error e, s') => (.error e, s')
    | _ => (.error .NotImplemented, s)
  | _ => (.error .NotImplemented, s)

end
/-- C4: in rewritten code, a compound assignment's target is evaluated at most
once per execution, for each of the target shapes the rewriter distinguishes —
a plain variable (no calls at all), an indexed location whose index is produced
by a side-effecting function call (that call happens exactly once), and a
location reached through a function call (that call happens exactly once) —
and this holds whether the checked operation succeeds or fails. The last
clause shows the value expression's own call is also performed exactly once. -/
theorem compound_assignment_target_effect_once (t : IntTy) (op : BinOpKind)
    (s : EvalState) (x a f g : String) (n : Int) :
    (eval t s (fold_expr (.compound op (.var x) (.lit n)))).2.calls = s.calls
    ∧ (eval t s (fold_expr
        (.compound op (.index (.var a) (.call f)) (.lit n)))).2.calls
      = f :: s.calls
    ∧ (eval t s (fold_expr (.compound op (.call f) (.lit n)))).2.calls
      = f :: s.calls
    ∧ (eval t s (fold_expr
        (.compound op (.index (.var a) (.call f)) (.call g)))).2.calls
      = g :: f :: s.calls := by
  refine ⟨?_, ?_, ?_, ?_⟩
  · show (eval t s (.assign (.var x) (.safeCall op (.var x) (.lit n)))).2.calls
      = s.calls
    simp only [eval, evalPlace]
    split <;> rename_i heq <;> split at heq <;>
      simp_all [EvalState.write, EvalState.callFn]
  · show (eval t s (.tmpBlock (generate_unique_ident (opBase op))
      (.index (.var a) (.call f)) op (.lit n))).2.calls = f :: s.calls
    simp only [eval, evalPlace]
    split <;> rename_i heq <;> simp_all [EvalState.write, EvalState.callFn]
  · show (eval t s (.tmpBlock (generate_unique_ident (opBase op))
      (.call f) op (.lit n))).2.calls = f :: s.calls
    simp only [eval, evalPlace]
    split <;> rename_i heq <;> simp_all [EvalState.write, EvalState.callFn]
  · show (eval t s (.tmpBlock (generate_unique_ident (opBase op))
      (.index (.var a) (.call f)) op (.call g))).2.calls = g :: f :: s.calls
    simp only [eval, evalPlace]
    split <;> rename_i heq <;> simp_all [EvalState.write, EvalState.callFn]

/-! ## The `#[safe_math]` attribute entry point (`safe_math` in
`safe_math_macros/src/lib.rs`) -/

/-- A function's declared return type: a success/failure outcome type
(`Result`-shaped) or any other type. -/
inductive RetTy where
  | outcome (okTy errTy : String)
  | plain (name : String)
deriving DecidableEq, Repr

/-- A parsed `ItemFn`: name, return type, body. -/
structure ItemFn where
  name : String
  ret : RetTy
  body : RExpr
deriving DecidableEq, Repr

/-- The `safe_math` attribute entry point. A procedural macro reports a
generation-time diagnostic by emitting a compile error instead of code,
modelled as the `Except.error` branch (the derive entry point uses it); the
source's `safe_math` never does — it parses the function, rewrites its block
with the fold, and emits the result unconditionally, without inspecting the
signature. -/
def safe_math (f : ItemFn) : Except String ItemFn :=
  .ok { f with body := fold_expr f.body }

/-- Counterexample for C9: applying the rewriting attribute to a function
whose return type is not an outcome type produces no generation-time
diagnostic — the macro happily emits the rewritten function, and the
mismatch is left to ordinary type checking of the emitted `?` operators. -/
theorem safe_math_accepts_non_outcome_return_cex :
    safe_math ⟨"add", .plain "u8", .binary .add (.var "a") (.var "b")⟩
      = .ok ⟨"add", .plain "u8", .safeCall .add (.var "a") (.var "b")⟩
    ∧ ¬ ∃ msg, safe_math ⟨"add", .plain "u8", .binary .add (.var "a") (.var "b")⟩
        = .error msg := by
  refine ⟨rfl, ?_⟩
  rintro ⟨msg, h⟩
  simp [safe_math] at h

/-- C9 as amended: the macro performs no return-type validation at all — for
every input function, whatever its return type, it succeeds and emits the
function with the rewritten body; a non-outcome return type only surfaces
later, as an ordinary type error of the expanded code. -/
theorem safe_math_always_rewrites (f : ItemFn) :
    safe_math f = .ok ⟨f.name, f.ret, fold_expr f.body⟩ :=
  rfl

/-! ## The `SafeMathOps` derive generator
(`safe-math-macros/src/derive/mod.rs`) -/

/-- `ALLOWED_OPS` from `derive/mod.rs`. -/
def ALLOWED_OPS : List String := ["add", "sub", "mul", "div", "rem"]

/-- A user-defined numeric type, seen through what the derive assumes of it:
its own checked primitive for each operation and its `Default` value
(the divisor compared against in the generated division). -/
structure UserCheckedOps (α : Type) where
  checked_add : α → α → Option α
  checked_sub : α → α → Option α
  checked_mul : α → α → Option α
  checked_div : α → α → Option α
  checked_rem : α → α → Option α
  default : α

/-- The generated `SafeMathOps` implementation: one method per operation. -/
structure SafeMathOpsImpl (α : Type) where
  safe_add : α → α → Except SafeMathError α
  safe_sub : α → α → Except SafeMathError α
  safe_mul : α → α → Except SafeMathError α
  safe_div : α → α → Except SafeMathError α
  safe_rem : α → α → Except SafeMathError α

/-- The `SafeAdd` impl emitted by `gen_extra_impls!`:
`self.checked_add(&rhs).ok_or(SafeMathError::Overflow)`. -/
def gen_trait_add {α : Type} (T : UserCheckedOps α) (a b : α) :
    Except SafeMathError α :=
  match T.checked_add a b with
  | some r => .ok r
  | none => .error .Overflow

/-- The emitted `SafeSub` impl: `checked_sub` with `Overflow` on `None`. -/
def gen_trait_sub {α : Type} (T : UserCheckedOps α) (a b : α) :
    Except SafeMathError α :=
  match T.checked_sub a b with
  | some r => .ok r
  | none => .error .Overflow

/-- The emitted `SafeMul` impl: `checked_mul` with `Overflow` on `None`. -/
def gen_trait_mul {α : Type} (T : UserCheckedOps α) (a b : α) :
    Except SafeMathError α :=
  match T.checked_mul a b with
  | some r => .ok r
  | none => .error .Overflow

/-- The emitted `SafeDiv` impl: `checked_div` with, on `None`,
`DivisionByZero` when `rhs == Self::default()` and `Overflow` otherwise. -/
def gen_trait_div {α : Type} [DecidableEq α] (T : UserCheckedOps α) (a b : α) :
    Except SafeMathError α :=
  match T.checked_div a b with
  | some r => .ok r
  | none => .error (if b = T.default then .DivisionByZero else .Overflow)

/-- The emitted `SafeRem` impl: `checked_rem` with `DivisionByZero` on `None`
(unconditionally). -/
def gen_trait_rem {α : Type} (T : UserCheckedOps α) (a b : α) :
    Except SafeMathError α :=
  match T.checked_rem a b with
  | some r => .ok r
  | none => .error .DivisionByZero

/-- The stub emitted for an unrequested operation:
`Err(SafeMathError::NotImplemented)`. -/
def not_implemented_stub {α : Type} (_ _ : α) : Except SafeMathError α :=
  .error .NotImplemented

/-- Assembly of the generated code (`gen_impl!` plus `gen_extra_impls!`):
each requested operation's `SafeMathOps` method delegates to the emitted
single-operation trait impl, each unrequested one is the `NotImplemented`
stub. `checked_ops` is the validated request set. -/
def expand_derive_impl {α : Type} [DecidableEq α] (T : UserCheckedOps α)
    (checked_ops : List String) : SafeMathOpsImpl α :=
  { safe_add := if "add" ∈ checked_ops then gen_trait_add T
      else not_implemented_stub
    safe_sub := if "sub" ∈ checked_ops then gen_trait_sub T
      else not_implemented_stub
    safe_mul := if "mul" ∈ checked_ops then gen_trait_mul T
      else not_implemented_stub
    safe_div := if "div" ∈ checked_ops then gen_trait_div T
      else not_implemented_stub
    safe_rem := if "rem" ∈ checked_ops then gen_trait_rem T
      else not_implemented_stub }

/-- A concrete user type for counterexamples: an `u8`-valued wrapper whose
checked primitives are the `u8` ones. -/
def T_u8 : UserCheckedOps Int :=
  ⟨checked_add u8Ty, checked_sub u8Ty, checked_mul u8Ty,
   checked_div u8Ty, checked_rem u8Ty, 0⟩

/-- Counterexample for C5: with every operation requested, the generated
remainder method maps its checked primitive's `None` at `(10, 0)` to
`DivisionByZero`, not to the `Overflow` the claim assigns to every
non-division operation. -/
theorem derive_rem_none_maps_to_division_by_zero_cex :
    (expand_derive_impl T_u8 ALLOWED_OPS).safe_rem 10 0
      = .error .DivisionByZero
    ∧ T_u8.checked_rem 10 0 = none
    ∧ SafeMathError.DivisionByZero ≠ SafeMathError.Overflow :=
  ⟨rfl, rfl, by decide⟩

/-- C5 as amended: for a type derived with requested set `S`, each generated
method for an operation in `S` delegates to the type's own checked primitive;
a `None` result maps to `Overflow` for add/sub/mul, for division to
`DivisionByZero` when the divisor equals the type's default (zero) value and
`Overflow` otherwise, and for remainder to `DivisionByZero` unconditionally;
each method for an operation not in `S` returns `Err(NotImplemented)` — so a
type deriving only `sub` fails with `NotImplemented` for add/mul/div/rem and
matches its checked-sub primitive for sub. -/
theorem derive_generated_methods_characterization {α : Type} [DecidableEq α]
    (T : UserCheckedOps α) (S : List String) (a b : α) :
    ((expand_derive_impl T S).safe_add a b =
      if "add" ∈ S then
        match T.checked_add a b with
        | some r => .ok r
        | none => .error .Overflow
      else .error .NotImplemented)
    ∧ ((expand_derive_impl T S).safe_sub a b =
      if "sub" ∈ S then
        match T.checked_sub a b with
        | some r => .ok r
        | none => .error .Overflow
      else .error .NotImplemented)
    ∧ ((expand_derive_impl T S).safe_mul a b =
      if "mul" ∈ S then
        match T.checked_mul a b with
        | some r => .ok r
        | none => .error .Overflow
      else .error .NotImplemented)
    ∧ ((expand_derive_impl T S).safe_div a b =
      if "div" ∈ S then
        match T.checked_div a b with
        | some r => .ok r
        | none => .error (if b = T.default then .DivisionByZero else .Overflow)
      else .error .NotImplemented)
    ∧ ((expand_derive_impl T S).safe_rem a b =
      if "rem" ∈ S then
        match T.checked_rem a b with
        | some r => .ok r
        | none => .error .DivisionByZero
      else .error .NotImplemented)
    ∧ ((expand_derive_impl T ["sub"]).safe_add a b = .error .NotImplemented
      ∧ (expand_derive_impl T ["sub"]).safe_mul a b = .error .NotImplemented
      ∧ (expand_derive_impl T ["sub"]).safe_div a b = .error .NotImplemented
      ∧ (expand_derive_impl T ["sub"]).safe_rem a b = .error .NotImplemented
      ∧ (expand_derive_impl T ["sub"]).safe_sub a b =
          match T.checked_sub a b with
          | some r => .ok r
          | none => .error .Overflow) := by
  refine ⟨?_, ?_, ?_, ?_, ?_, ?_, ?_, ?_, ?_, ?_⟩
  · by_cases h : "add" ∈ S <;>
      simp [expand_derive_impl, h, gen_trait_add, not_implemented_stub]
  · by_cases h : "sub" ∈ S <;>
      simp [expand_derive_impl, h, gen_trait_sub, not_implemented_stub]
  · by_cases h : "mul" ∈ S <;>
      simp [expand_derive_impl, h, gen_trait_mul, not_implemented_stub]
  · by_cases h : "div" ∈ S <;>
      simp [expand_derive_impl, h, gen_trait_div, not_implemented_stub]
  · by_cases h : "rem" ∈ S <;>
      simp [expand_derive_impl, h, gen_trait_rem, not_implemented_stub]
  · simp [expand_derive_impl, not_implemented_stub]
  · simp [expand_derive_impl, not_implemented_stub]
  · simp [expand_derive_impl, not_implemented_stub]
  · simp [expand_derive_impl, not_implemented_stub]
  · simp [expand_derive_impl, gen_trait_sub]

/-- The validation loop of `expand_derive_safe_math_ops`: walk the attribute's
argument identifiers in order; an identifier outside `ALLOWED_OPS` is an
unknown-operation error, one already collected is a duplicate-operation error;
otherwise it is appended to the collected set. -/
def validateOps : List String → List String → Except String (List String)
  | acc, [] => .ok acc
  | acc, a :: rest =>
    if a ∈ ALLOWED_OPS then
      if a ∈ acc then .error ("Duplicate operation " ++ a)
      else validateOps (acc ++ [a]) rest
    else .error ("Unknown operation " ++ a)

/-- `expand_derive_safe_math_ops`: validate the requested operations, reject
an empty result, and otherwise emit the generated implementation. An error
means a generation-time diagnostic is produced and no implementation is
generated. -/
def expand_derive_safe_math_ops {α : Type} [DecidableEq α]
    (T : UserCheckedOps α) (args : List String) :
    Except String (SafeMathOpsImpl α) :=
  match validateOps [] args with
  | .error e => .error e
  | .ok ops =>
    if ops.isEmpty then
      .error "SafeMathOps requires at least one operation"
    else .ok (expand_derive_impl T ops)

lemma validateOps_ok_eq :
    ∀ (rest acc l : List String), validateOps acc rest = .ok l → l = acc ++ rest := by
  intro rest
  induction rest with
  | nil =>
    intro acc l h
    simp only [validateOps] at h
    cases h
    simp
  | cons a rest ih =>
    intro acc l h
    simp only [validateOps] at h
    by_cases h1 : a ∈ ALLOWED_OPS
    · simp only [h1, if_true] at h
      by_cases h2 : a ∈ acc
      · simp [h2] at h
      · simp only [h2, if_false] at h
        have := ih (acc ++ [a]) l h
        simp [this]
    · simp [h1] at h

lemma validateOps_isOk_iff :
    ∀ (rest acc : List String), acc.Nodup →
      ((∃ l, validateOps acc rest = .ok l) ↔
        ((acc ++ rest).Nodup ∧ ∀ a ∈ rest, a ∈ ALLOWED_OPS)) := by
  intro rest
  induction rest with
  | nil =>
    intro acc hacc
    simp [validateOps, hacc]
  | cons a rest ih =>
    intro acc hacc
    simp only [validateOps]
    by_cases h1 : a ∈ ALLOWED_OPS
    · by_cases h2 : a ∈ acc
      · simp only [h1, if_true, h2]
        constructor
        · rintro ⟨l, h⟩
          simp at h
        · rintro ⟨hnd, _⟩
          exfalso
          rw [List.nodup_append] at hnd
          exact hnd.2.2 h2 (List.mem_cons_self a rest)
      · simp only [h1, if_true, h2, if_false]
        have hacc' : (acc ++ [a]).Nodup := by
          rw [List.nodup_append]
          refine ⟨hacc, List.nodup_singleton a, ?_⟩
          intro b hb hb'
          rw [List.mem_singleton] at hb'
          subst hb'
          exact h2 hb
        rw [ih (acc ++ [a]) hacc']
        rw [List.append_assoc]
        simp only [List.singleton_append]
        constructor
        · rintro ⟨hnd, hall⟩
          exact ⟨hnd, fun b hb => by
            rcases List.mem_cons.mp hb with hb | hb
            · subst hb; exact h1
            · exact hall b hb⟩
        · rintro ⟨hnd, hall⟩
          exact ⟨hnd, fun b hb => hall b (List.mem_cons_of_mem a hb)⟩
    · simp only [h1, if_false]
      constructor
      · rintro ⟨l, h⟩
        simp at h
      · rintro ⟨_, hall⟩
        exact absurd (hall a (List.mem_cons_self a rest)) h1

/-- C6: derivation fails at generation time — producing a diagnostic and
generating no implementation — if and only if the requested operation list is
empty, contains a duplicate entry, or contains an identifier outside
add/sub/mul/div/rem. -/
theorem derive_validation_fails_iff (T : UserCheckedOps Int)
    (args : List String) :
    (∃ e, expand_derive_safe_math_ops T args = .error e) ↔
      (args = [] ∨ ¬ args.Nodup ∨ ∃ a ∈ args, a ∉ ALLOWED_OPS) := by
  have hiff := validateOps_isOk_iff args [] List.nodup_nil
  simp only [List.nil_append] at hiff
  unfold expand_derive_safe_math_ops
  cases h : validateOps [] args with
  | error e =>
    have hno : ¬ ∃ l, validateOps [] args = .ok l := by
      rintro ⟨l, hl⟩
      rw [h] at hl
      cases hl
    rw [hiff] at hno
    constructor
    · intro _
      rcases not_and_or.mp hno with hnd | hall
      · exact Or.inr (Or.inl hnd)
      · push_neg at hall
        exact Or.inr (Or.inr hall)
    · intro _
      exact ⟨e, rfl⟩
  | ok l =>
    have hl : l = args := by simpa using validateOps_ok_eq args [] l h
    subst hl
    have hok : (l.Nodup ∧ ∀ a ∈ l, a ∈ ALLOWED_OPS) := hiff.mp ⟨l, h⟩
    by_cases hemp : l.isEmpty
    · rw [List.isEmpty_iff] at hemp
      subst hemp
      simp
    · simp only [hemp, if_false]
      rw [List.isEmpty_iff] at hemp
      constructor
      · rintro ⟨e, he⟩
        cases he
      · rintro (h1 | h2 | ⟨a, ha, hna⟩)
        · exact absurd h1 hemp
        · exact absurd hok.1 h2
        · exact absurd (hok.2 a ha) hna

/-! ## `From<SafeMathError> for ()` (`src/error.rs`) -/

/-- The `From<SafeMathError> for ()` impl of `src/error.rs`: every error value
converts to the unit value, discarding the error kind. -/
def safe_math_error_to_unit (_ : SafeMathError) : Unit := ()

/-- Rust's `?` operator desugared in a function whose declared error type is
`()`: on `Err(e)` it returns early with `Err(From::from(e))`, using the
conversion above. -/
def try_propagate_to_unit {α β : Type} (r : Except SafeMathError α)
    (k : α → Except Unit β) : Except Unit β :=
  match r with
  | .ok a => k a
  | .error e => .error (safe_math_error_to_unit e)

/-- C10: every `SafeMathError` value converts into `()` via the `From`
conversion, discarding the kind, so a rewritten function whose declared error
type is `()` propagates any checked-operation failure with `?` as `Err(())`. -/
theorem safe_math_error_unit_propagation (e : SafeMathError)
    (k : Int → Except Unit Int) :
    safe_math_error_to_unit e = ()
    ∧ try_propagate_to_unit (.error e) k = .error ()
    ∧ try_propagate_to_unit (safe_add u8Ty 255 1) k = .error () :=
  ⟨rfl, rfl, rfl⟩
